import Mathlib

/-
Verification of the chunked-transfer core of a Microsoft-Graph client library.

The embedding below translates, function by function, the Python source of
the client library:

  * `core.py`     : the generic `_request` error-raising policy (status-code
                    checks, structured-error extraction, and the opt-in
                    `ignore_timeout` flag for status 504);
  * `excel.py`    : the workbook session wrapper `_custom_request` (refresh
                    and retry once on an `InvalidSession` error), the
                    best-effort `_close_session`, and the chunked range read
                    `get_range_data`;
  * `drive.py`    : the chunked upload loop `chunk_upload` (byte chunk plan
                    and `Content-Range` headers); `outlook.py` has the same
                    loop shape in `upload_attachment`;
  * `misc.py`     : the column-letter arithmetic `xl_col2num`, `xl_num2col`,
                    `xl_add2col`, `xl_parse_cell_address`, `xl_shift_cell`.

Remote interaction is modelled by passing responses in explicitly; machine
loops are modelled with a fuel argument that is always supplied large enough
(each theorem quantifies over the data, never over the fuel).
-/

/-- Shape of an HTTP response as the library observes it: the status code,
whether the body is JSON (`'application/json' in res.headers['Content-Type']`),
and the structured error object `res.json().get('error')`, carrying a code
and a message when present. -/
structure HttpResponse where
  status : Nat
  contentTypeJson : Bool
  err : Option (String × String)
  deriving Repr, DecidableEq

/-- Model of `requests`' `res.ok`: true exactly when the status code is
below 400. -/
def HttpResponse.ok (r : HttpResponse) : Bool :=
  decide (r.status < 400)

/-- Condition under which `WorkbookClient._custom_request` retries
(excel.py lines 122-123): `not res.ok`, a JSON content type, and the
structured error code equal to the literal `InvalidSession`. -/
def isInvalidSession (r : HttpResponse) : Bool :=
  !r.ok && r.contentTypeJson && (r.err.map Prod.fst == some "InvalidSession")

/-- Model of `WorkbookClient._custom_request` (excel.py lines 109-127).
`respond i sid` is the remote response to the i-th issue of the request when
sent under session id `sid`; `newSession` is the session id that
`_refresh_session_id` would install.  Returns the response handed back to the
caller, the number of times the request was issued, and the final session id. -/
def customRequest (respond : Nat → String → HttpResponse) (newSession : String)
    (sid : String) : HttpResponse × Nat × String :=
  let r0 := respond 0 sid
  if isInvalidSession r0 then
    (respond 1 newSession, 2, newSession)
  else
    (r0, 1, sid)

/-- Model of the error-raising tail of `CoreClient._request` (core.py lines
74-93): unless `ignore_timeout` is set and the status is 504, a structured
JSON error raises `ValueError(code: msg)` and any 4xx/5xx status raises via
`res.raise_for_status()`; otherwise the response is returned. -/
def coreRequestCheck (ignoreTimeout : Bool) (res : HttpResponse) :
    Except String HttpResponse :=
  if ignoreTimeout && (res.status == 504) then
    Except.ok res
  else if res.contentTypeJson && res.err.isSome then
    Except.error (((res.err.map Prod.fst).getD "") ++ ": " ++ ((res.err.map Prod.snd).getD ""))
  else if 400 ≤ res.status ∧ res.status < 600 then
    Except.error "HTTPError"
  else
    Except.ok res

/-- Model of `WorkbookClient._close_session` (excel.py lines 129-134): when a
session id is held, a `closeSession` request is posted through the session
wrapper and then subjected to the standard `_request` error policy (there is
no exception handler around it); when no session id is held, no request is
issued.  `some res` marks that a request was issued and returned `res`. -/
def close_session (sessionId : String) (respond : Nat → String → HttpResponse)
    (newSession : String) : Except String (Option HttpResponse) :=
  if sessionId = "" then
    Except.ok none
  else
    Except.map some (coreRequestCheck false (customRequest respond newSession sessionId).1)

/-- C1: if the first response to a request issued through the workbook session
wrapper carries the `InvalidSession` error code, the session id is refreshed
and the same request is reissued exactly once more: the result is the second
response unchanged (a success yields a success, a second `InvalidSession` or
any other failure is surfaced as is) after exactly 2 requests, never 3.  If
the first response is anything else, it is returned after exactly 1 request
with the session id untouched. -/
theorem c1_invalid_session_retry (respond : Nat → String → HttpResponse)
    (newSession sid : String) :
    (isInvalidSession (respond 0 sid) = true →
      customRequest respond newSession sid = (respond 1 newSession, 2, newSession)) ∧
    (isInvalidSession (respond 0 sid) = false →
      customRequest respond newSession sid = (respond 0 sid, 1, sid)) := by
  constructor <;> intro h <;> simp [customRequest, h]

/-- Witness for C1: a remote that answers `InvalidSession` first and 200 on
the retry yields the 200 response with exactly 2 requests issued and the
refreshed session id installed. -/
theorem c1_invalid_session_retry_witness :
    customRequest
        (fun i _ => if i = 0 then ⟨409, true, some ("InvalidSession", "expired")⟩
                    else ⟨200, true, none⟩)
        "sid2" "sid1"
      = (⟨200, true, none⟩, 2, "sid2") :=
  (c1_invalid_session_retry
      (fun i _ => if i = 0 then ⟨409, true, some ("InvalidSession", "expired")⟩
                  else ⟨200, true, none⟩)
      "sid2" "sid1").1 (by decide)

/-- C9: with the `ignore_timeout` flag set and a 504 status the error-raising
path is skipped and the raw response is returned; on any other status the
flag changes nothing; with the flag unset a 504 is a propagated failure. -/
theorem c9_ignore_timeout_policy (res : HttpResponse) :
    (res.status = 504 → coreRequestCheck true res = Except.ok res) ∧
    (res.status ≠ 504 → coreRequestCheck true res = coreRequestCheck false res) ∧
    (res.status = 504 → ∃ e, coreRequestCheck false res = Except.error e) := by
  refine ⟨fun h => ?_, fun h => ?_, fun h => ?_⟩
  · simp [coreRequestCheck, h]
  · simp [coreRequestCheck, h]
  · unfold coreRequestCheck
    rw [if_neg (by simp)]
    by_cases hj : res.contentTypeJson && res.err.isSome
    · rw [if_pos hj]
      exact ⟨_, rfl⟩
    · rw [if_neg hj, if_pos (by omega)]
      exact ⟨_, rfl⟩

/-- Witness for C9: a JSON-free 504 response is returned raw when the flag is
set, and is an error when the flag is unset. -/
theorem c9_ignore_timeout_policy_witness :
    coreRequestCheck true ⟨504, false, none⟩ = Except.ok ⟨504, false, none⟩ ∧
    coreRequestCheck false ⟨504, false, none⟩ = Except.error "HTTPError" :=
  ⟨(c9_ignore_timeout_policy ⟨504, false, none⟩).1 rfl, by rfl⟩

/-- Counterexample to C8 as stated: with a live session id, a remote that
rejects the close notification with a plain 500 makes `_close_session` raise
(there is no exception handler in `_close_session`, and nothing in the
repository calls it inside one), so the failure is propagated to the caller
rather than swallowed. -/
theorem c8_close_session_counterexample :
    close_session "sess" (fun _ _ => ⟨500, false, none⟩) "sid2"
      = Except.error "HTTPError" := by
  rfl

/-- C8 amended: closing is attempted only when a session id is held (no
request at all otherwise), and a remote failure of the close notification is
propagated to the caller through the standard `_request` error policy — it is
not swallowed; only a plain success returns normally. -/
theorem c8_close_session_propagates (respond : Nat → String → HttpResponse)
    (newSession sid : String) :
    close_session "" respond newSession = Except.ok none ∧
    (sid ≠ "" → 400 ≤ (customRequest respond newSession sid).1.status →
      (customRequest respond newSession sid).1.status < 600 →
      ∃ e, close_session sid respond newSession = Except.error e) ∧
    (sid ≠ "" → (customRequest respond newSession sid).1.status < 400 →
      (customRequest respond newSession sid).1.contentTypeJson = false →
      close_session sid respond newSession = Except.ok (some (customRequest respond newSession sid).1)) := by
  refine ⟨by simp [close_session], fun hs h4 h6 => ?_, fun hs hlt hct => ?_⟩
  · unfold close_session
    rw [if_neg hs]
    unfold coreRequestCheck
    rw [if_neg (by simp)]
    by_cases hj : (customRequest respond newSession sid).1.contentTypeJson &&
        (customRequest respond newSession sid).1.err.isSome
    · rw [if_pos hj]
      exact ⟨_, rfl⟩
    · rw [if_neg hj, if_pos ⟨h4, h6⟩]
      exact ⟨_, rfl⟩
  · unfold close_session
    rw [if_neg hs]
    unfold coreRequestCheck
    rw [if_neg (by simp), if_neg (by simp [hct]), if_neg (by omega)]
    rfl

/-- Witness for C8 amended: a 500 rejection of the close notification is
surfaced as an error, at a concrete session and remote. -/
theorem c8_close_session_propagates_witness :
    ∃ e, close_session "live" (fun _ _ => ⟨503, false, none⟩) "sid2" = Except.error e :=
  (c8_close_session_propagates (fun _ _ => ⟨503, false, none⟩) "sid2" "live").2.1
    (by decide) (by decide) (by decide)

/-- Offset/length trace of the chunk loop shared by `DriveClient.upload_file`'s
inner `chunk_upload` (drive.py lines 93-115) and
`OutlookClient.upload_attachment` (outlook.py lines 137-155): starting from
`offset` with `remaining` items left, each `ff.read(chunk_size)` on a regular
stream returns `min chunk remaining` items (and the empty read, which also
happens when `chunk_size` is 0, ends the loop). -/
def chunkPlanAux (chunk off rem : Nat) : List (Nat × Nat) :=
  if rem = 0 ∨ chunk = 0 then []
  else (off, min chunk rem) :: chunkPlanAux chunk (off + min chunk rem) (rem - min chunk rem)
termination_by rem
decreasing_by omega

/-- Chunk plan of a whole transfer: the loop's trace started at offset 0. -/
def chunkPlan (total chunk : Nat) : List (Nat × Nat) :=
  chunkPlanAux chunk 0 total

/-- The same upload loop modelled directly over the stream contents: each
iteration reads `data.take chunkSize`, stops on an empty read, and records
`(current_bytes, transfer_bytes)` exactly as drive.py lines 94-107 do. -/
def chunkReads {α : Type} (chunkSize : Nat) (data : List α) (current : Nat) :
    List (Nat × Nat) :=
  if (data.take chunkSize).isEmpty then []
  else
    (current, (data.take chunkSize).length) ::
      chunkReads chunkSize (data.drop chunkSize) (current + (data.take chunkSize).length)
termination_by data.length
decreasing_by
  rename_i h
  rw [List.isEmpty_iff, List.take_eq_nil_iff] at h
  push_neg at h
  have := List.length_pos_of_ne_nil h.2
  simp only [List.length_drop]
  omega

/-- Model of Python's `range(start, stop, step)` iteration for a positive
step (the `0 < step` conjunct only renders the recursion well-founded; a zero
step is rejected before this function is reached, see `pythonRange`). -/
def pythonRangeAux (step start stop : Nat) : List Nat :=
  if start < stop ∧ 0 < step then start :: pythonRangeAux step (start + step) stop
  else []
termination_by stop - start
decreasing_by omega

/-- Model of Python's `range(start, stop, step)`: `range` raises `ValueError`
on a zero step (modelled as `none`) and otherwise yields the ascending
arithmetic progression below `stop`. -/
def pythonRange (start stop step : Nat) : Option (List Nat) :=
  if step = 0 then none else some (pythonRangeAux step start stop)

/-- Row chunk size of `WorkbookClient.get_range_data` (excel.py line 196):
`row_chunk_size = chunk_size // cols`, with no lower clamp. -/
def rowsPerChunk (cols chunkSize : Nat) : Nat :=
  chunkSize / cols

/-- The `(offset, length)` row ranges enumerated by the chunked read's loop
`for i in range(0, rows, row_chunk_size)` (excel.py lines 198-200): chunk `i`
covers row offsets `i` through `min (i + step - 1) (rows - 1)` relative to
the top-left of the range. -/
def rowChunks (rows step : Nat) : Option (List (Nat × Nat)) :=
  (pythonRange 0 rows step).map
    (List.map (fun i => (i, min (i + step - 1) (rows - 1) - i + 1)))

/-- The inclusive `(first, last)` row-offset bounds of each chunk read issued
by `get_range_data`, as shifted from the range's top-left cell. -/
def readChunkBounds (rows cols chunkSize : Nat) : Option (List (Nat × Nat)) :=
  (pythonRange 0 rows (rowsPerChunk cols chunkSize)).map
    (List.map (fun i => (i, min (i + rowsPerChunk cols chunkSize - 1) (rows - 1))))

/-- Model of Python's `str.strip()` with no argument as excel.py line 212
applies it to every cell: surrounding whitespace is removed. -/
def pyStrip (s : String) : String :=
  String.mk (((s.data.dropWhile Char.isWhitespace).reverse.dropWhile Char.isWhitespace).reverse)

/-- Model of `WorkbookClient.get_range_data` (excel.py lines 191-212) on the
`as_df=False` path, with the remote sheet passed in as its grid of cell
strings: the row chunk size is `chunk_size // cols`; each chunk read returns
the sheet rows from offset `i` through `min (i + row_chunk_size - 1) (rows - 1)`;
the chunks are concatenated in loop order and every cell is stripped.  A zero
row chunk size makes Python's `range` raise, modelled as `none`. -/
def get_range_data (sheet : List (List String)) (rows cols chunkSize : Nat) :
    Option (List (List String)) :=
  (pythonRange 0 rows (rowsPerChunk cols chunkSize)).map (fun idxs =>
    (idxs.flatMap (fun i =>
        (sheet.drop i).take
          (min (i + rowsPerChunk cols chunkSize - 1) (rows - 1) - i + 1))).map
      (fun row => row.map pyStrip))

/-- Content-Range header built for each chunk (drive.py line 105 and
outlook.py line 150): the literal f-string
`bytes {current_bytes}-{current_bytes + transfer_bytes - 1}/{file_size}`. -/
def contentRangeHeader (start len total : Nat) : String :=
  "bytes " ++ toString start ++ "-" ++ toString (start + len - 1) ++ "/" ++ toString total

/-- The Content-Range headers carried by the successive chunk requests of an
upload of `total` bytes with chunk size `chunk`. -/
def uploadChunkHeaders (total chunk : Nat) : List String :=
  (chunkPlan total chunk).map (fun p => contentRangeHeader p.1 p.2 total)

/-- The chunk loop issues nothing when no items remain. -/
theorem chunkPlanAux_zero_rem (chunk off : Nat) : chunkPlanAux chunk off 0 = [] := by
  rw [chunkPlanAux]
  simp

/-- The chunk loop issues at least one chunk when items remain and the chunk
size is positive. -/
theorem chunkPlanAux_ne_nil {chunk off rem : Nat} (hc : chunk ≠ 0) (hr : rem ≠ 0) :
    chunkPlanAux chunk off rem ≠ [] := by
  rw [chunkPlanAux]
  simp [hc, hr]

/-- Flattening the chunk ranges yields exactly the contiguous index interval
starting at the loop's offset: no gap, no overlap, ascending order. -/
theorem chunkPlanAux_flatMap_range' (chunk : Nat) (hc : 1 ≤ chunk) (off rem : Nat) :
    (chunkPlanAux chunk off rem).flatMap (fun p => List.range' p.1 p.2)
      = List.range' off rem := by
  induction off, rem using chunkPlanAux.induct chunk with
  | case1 off rem h =>
    have hr : rem = 0 := by omega
    rw [chunkPlanAux, if_pos h, hr]
    simp
  | case2 off rem h ih =>
    rw [chunkPlanAux, if_neg h, List.flatMap_cons, ih]
    have happ := List.range'_append off (min chunk rem) (rem - min chunk rem) 1
    simp only [one_mul] at happ
    rw [happ]
    congr 1
    omega

/-- Flattening the per-chunk segments of any list whose length matches the
remaining count reassembles the list's tail from the loop's offset on. -/
theorem chunkPlanAux_flatMap_take {α : Type} (chunk : Nat) (hc : 1 ≤ chunk) (S : List α)
    (off rem : Nat) (hlen : off + rem = S.length) :
    (chunkPlanAux chunk off rem).flatMap (fun p => (S.drop p.1).take p.2)
      = S.drop off := by
  revert hlen
  induction off, rem using chunkPlanAux.induct chunk with
  | case1 off rem h =>
    intro hlen
    rw [chunkPlanAux, if_pos h]
    have : off = S.length := by omega
    rw [this, List.drop_length]
    rfl
  | case2 off rem h ih =>
    intro hlen
    rw [chunkPlanAux, if_neg h, List.flatMap_cons, ih (by omega)]
    rw [← List.drop_drop]
    exact List.take_append_drop _ _

/-- Every chunk except possibly the last one is full. -/
theorem chunkPlanAux_dropLast (chunk : Nat) (off rem : Nat) :
    ∀ p ∈ (chunkPlanAux chunk off rem).dropLast, p.2 = chunk := by
  induction off, rem using chunkPlanAux.induct chunk with
  | case1 off rem h =>
    rw [chunkPlanAux, if_pos h]
    simp
  | case2 off rem h ih =>
    rw [chunkPlanAux, if_neg h]
    by_cases hle : rem ≤ chunk
    · rw [show min chunk rem = rem by omega, Nat.sub_self, chunkPlanAux_zero_rem]
      simp
    · rw [show min chunk rem = chunk by omega] at ih ⊢
      have hne := @chunkPlanAux_ne_nil chunk (off + chunk) (rem - chunk)
        (by omega) (by omega)
      obtain ⟨b, L, hbl⟩ := List.exists_cons_of_ne_nil hne
      rw [hbl, List.dropLast_cons₂]
      intro p hp
      rcases List.mem_cons.mp hp with h1 | h2
      · rw [h1]
      · exact ih p (by rw [hbl]; exact h2)

/-- The last chunk holds the remainder: `rem % chunk` items, or a full chunk
when the chunk size divides evenly. -/
theorem chunkPlanAux_getLast (chunk : Nat) (hc : 1 ≤ chunk) (off rem : Nat)
    (hr : 1 ≤ rem) :
    (chunkPlanAux chunk off rem).getLast?.map Prod.snd
      = some (if rem % chunk = 0 then chunk else rem % chunk) := by
  revert hr
  induction off, rem using chunkPlanAux.induct chunk with
  | case1 off rem h =>
    intro hr
    omega
  | case2 off rem h ih =>
    intro hr
    rw [chunkPlanAux, if_neg h]
    by_cases hle : rem ≤ chunk
    · rw [show min chunk rem = rem by omega, Nat.sub_self, chunkPlanAux_zero_rem,
        List.getLast?_singleton, Option.map_some']
      by_cases heq : rem = chunk
      · rw [heq, Nat.mod_self, if_pos rfl]
      · rw [Nat.mod_eq_of_lt (by omega), if_neg (by omega)]
    · rw [show min chunk rem = chunk by omega] at ih ⊢
      have hne := @chunkPlanAux_ne_nil chunk (off + chunk) (rem - chunk)
        (by omega) (by omega)
      obtain ⟨b, L, hbl⟩ := List.exists_cons_of_ne_nil hne
      rw [hbl, List.getLast?_cons_cons, ← hbl, ih (by omega)]
      have hmod : (rem - chunk) % chunk = rem % chunk := by
        conv_rhs => rw [show rem = (rem - chunk) + chunk by omega]
        rw [Nat.add_mod_right]
      rw [hmod]

/-- Every chunk's offset is at least the loop's starting offset. -/
theorem chunkPlanAux_offset_ge (chunk : Nat) (off rem : Nat) :
    ∀ p ∈ chunkPlanAux chunk off rem, off ≤ p.1 := by
  induction off, rem using chunkPlanAux.induct chunk with
  | case1 off rem h =>
    rw [chunkPlanAux, if_pos h]
    simp
  | case2 off rem h ih =>
    rw [chunkPlanAux, if_neg h]
    intro p hp
    rcases List.mem_cons.mp hp with h1 | h2
    · rw [h1]
    · have := ih p h2
      omega

/-- Chunk offsets appear in strictly increasing order. -/
theorem chunkPlanAux_pairwise (chunk : Nat) (off rem : Nat) :
    (chunkPlanAux chunk off rem).Pairwise (fun p q => p.1 < q.1) := by
  induction off, rem using chunkPlanAux.induct chunk with
  | case1 off rem h =>
    rw [chunkPlanAux, if_pos h]
    simp
  | case2 off rem h ih =>
    rw [chunkPlanAux, if_neg h]
    rw [List.pairwise_cons]
    refine ⟨fun q hq => ?_, ih⟩
    have := chunkPlanAux_offset_ge chunk (off + min chunk rem) (rem - min chunk rem) q hq
    omega

/-- Python's range iteration is empty once the start has reached the stop. -/
theorem pythonRangeAux_stop (step start stop : Nat) (h : stop ≤ start) :
    pythonRangeAux step start stop = [] := by
  rw [pythonRangeAux, if_neg (by omega)]

/-- The row chunks enumerated by `for i in range(0, rows, step)` in
`get_range_data`, taken with the inclusive bottom row
`min (i + step - 1) (rows - 1)`, are exactly the chunk plan of the upload
loop: the two chunk-planning loops of the library agree. -/
theorem pythonRangeAux_map_eq_chunkPlanAux (step : Nat) (hs : 1 ≤ step) (rows : Nat) :
    ∀ i, (pythonRangeAux step i rows).map
        (fun j => (j, min (j + step - 1) (rows - 1) - j + 1))
      = chunkPlanAux step i (rows - i) := by
  intro i
  generalize hd : rows - i = d
  induction d using Nat.strong_induction_on generalizing i with
  | _ d ih =>
    by_cases hlt : i < rows
    · rw [pythonRangeAux, if_pos ⟨hlt, by omega⟩, List.map_cons,
        chunkPlanAux, if_neg (by omega)]
      congr 1
      · have : min (i + step - 1) (rows - 1) - i + 1 = min step d := by omega
        rw [this]
      · by_cases hcase : step ≤ d
        · rw [show min step d = step by omega]
          rw [show d - step = rows - (i + step) by omega]
          exact ih (rows - (i + step)) (by omega) (i + step) rfl
        · rw [show min step d = d by omega, Nat.sub_self, chunkPlanAux_zero_rem,
            pythonRangeAux_stop step (i + step) rows (by omega)]
          rfl
    · rw [pythonRangeAux_stop step i rows (by omega)]
      rw [show d = 0 by omega, chunkPlanAux_zero_rem]
      rfl

/-- The offsets and lengths recorded by the upload loop over the actual
stream contents coincide with the chunk plan of the stream's length. -/
theorem chunkReads_eq_chunkPlanAux {α : Type} (chunkSize : Nat) (data : List α)
    (current : Nat) :
    chunkReads chunkSize data current = chunkPlanAux chunkSize current data.length := by
  induction data, current using chunkReads.induct chunkSize with
  | case1 data current h =>
    rw [chunkReads, if_pos h]
    rw [List.isEmpty_iff, List.take_eq_nil_iff] at h
    rcases h with h | h
    · rw [chunkPlanAux, if_pos (Or.inr h)]
    · rw [chunkPlanAux, if_pos (Or.inl (by rw [h]; rfl))]
  | case2 data current h ih =>
    have h2 := h
    rw [List.isEmpty_iff, List.take_eq_nil_iff] at h2
    push_neg at h2
    have hlen : 0 < data.length := List.length_pos_of_ne_nil h2.2
    have ht : (data.take chunkSize).length = min chunkSize data.length := by
      rw [List.length_take]
    have hd : (data.drop chunkSize).length = data.length - chunkSize :=
      List.length_drop _ _
    rw [chunkReads, if_neg h, chunkPlanAux, if_neg (by omega)]
    rw [ht]
    congr 1
    rw [ht] at ih
    rw [ih, hd]
    congr 1
    omega

/-- C2: for every `totalItems ≥ 1` and `itemsPerChunk ≥ 1`, the chunk ranges
produced by the planning loops (the upload loop's byte chunks, equal to the
trace over the actual stream contents, and the row chunks enumerated by
`range(0, rows, row_chunk_size)` in the chunked read) are contiguous,
non-overlapping, cover exactly `[0, totalItems)` in strictly increasing
offset order, and every chunk is full except possibly the final one, which
holds the remainder (or a full chunk on even division). -/
theorem c2_chunk_plan_partition (total chunk : Nat) (ht : 1 ≤ total) (hc : 1 ≤ chunk) :
    ((chunkPlan total chunk).flatMap (fun p => List.range' p.1 p.2) = List.range total) ∧
    (∀ p ∈ (chunkPlan total chunk).dropLast, p.2 = chunk) ∧
    ((chunkPlan total chunk).getLast?.map Prod.snd
      = some (if total % chunk = 0 then chunk else total % chunk)) ∧
    List.Pairwise (fun p q => p.1 < q.1) (chunkPlan total chunk) ∧
    rowChunks total chunk = some (chunkPlan total chunk) ∧
    (∀ data : List Unit, data.length = total → chunkReads chunk data 0 = chunkPlan total chunk) := by
  refine ⟨?_, ?_, ?_, ?_, ?_, ?_⟩
  · rw [chunkPlan, chunkPlanAux_flatMap_range' chunk hc 0 total, List.range_eq_range']
  · exact chunkPlanAux_dropLast chunk 0 total
  · exact chunkPlanAux_getLast chunk hc 0 total ht
  · exact chunkPlanAux_pairwise chunk 0 total
  · rw [rowChunks, pythonRange, if_neg (by omega), Option.map_some',
      pythonRangeAux_map_eq_chunkPlanAux chunk hc total 0, Nat.sub_zero]
    rfl
  · intro data hdata
    rw [chunkReads_eq_chunkPlanAux, hdata]
    rfl

/-- Witness for C2: at 7 items in chunks of 3, the last chunk holds the
remainder and the excel row loop produces the same plan as the upload loop. -/
theorem c2_chunk_plan_partition_witness :
    (chunkPlan 7 3).getLast?.map Prod.snd = some (if 7 % 3 = 0 then 3 else 7 % 3) ∧
    rowChunks 7 3 = some (chunkPlan 7 3) :=
  ⟨(c2_chunk_plan_partition 7 3 (by decide) (by decide)).2.2.1,
   (c2_chunk_plan_partition 7 3 (by decide) (by decide)).2.2.2.2.1⟩

/-- C3: every chunk request carries the Content-Range header
`bytes {start}-{end}/{total}` with `end = start + length - 1`, and an upload
of 10,000,000 bytes in chunks of 5,242,880 issues exactly the two headers
`bytes 0-5242879/10000000` then `bytes 5242880-9999999/10000000`. -/
theorem c3_content_range_headers :
    (∀ total chunk : Nat, ∀ p ∈ chunkPlan total chunk,
      contentRangeHeader p.1 p.2 total
        = "bytes " ++ toString p.1 ++ "-" ++ toString (p.1 + p.2 - 1) ++ "/" ++ toString total) ∧
    uploadChunkHeaders 10000000 5242880
      = ["bytes 0-5242879/10000000", "bytes 5242880-9999999/10000000"] := by
  constructor
  · intro total chunk p _
    rfl
  · have hplan : chunkPlan 10000000 5242880 = [(0, 5242880), (5242880, 4757120)] := by
      simp [chunkPlan, chunkPlanAux]
    rw [uploadChunkHeaders, hplan]
    decide

/-- Witness for C3: the header of the chunk at offset 8 of length 2 in a
10-byte upload with chunk size 4, with the membership hypothesis discharged
on the concrete plan. -/
theorem c3_content_range_headers_witness :
    contentRangeHeader 8 2 10
      = "bytes " ++ toString 8 ++ "-" ++ toString (8 + 2 - 1) ++ "/" ++ toString 10 :=
  c3_content_range_headers.1 10 4 (8, 2) (by simp [chunkPlan, chunkPlanAux])

/-- C5: the chunked range read returns the row-major concatenation of all
chunk responses in loop order — the whole sheet, row count included — with
every cell stripped of surrounding whitespace; and at 12 rows, 40 columns,
250 cells per chunk it computes 6 rows per chunk and issues exactly 2 chunk
reads over row offsets 0-5 and 6-11 (rows 1-6 and 7-12 of the range). -/
theorem c5_chunked_read_reassembly :
    (∀ (sheet : List (List String)) (rows cols chunkSize : Nat),
        sheet.length = rows → 1 ≤ cols → cols ≤ chunkSize →
        get_range_data sheet rows cols chunkSize
          = some (sheet.map (fun row => row.map pyStrip))) ∧
    rowsPerChunk 40 250 = 6 ∧
    readChunkBounds 12 40 250 = some [(0, 5), (6, 11)] := by
  refine ⟨?_, rfl, ?_⟩
  · intro sheet rows cols chunkSize hlen hc hcs
    have hrpc : 1 ≤ rowsPerChunk cols chunkSize := Nat.div_pos hcs (by omega)
    rw [get_range_data, pythonRange, if_neg (by omega), Option.map_some']
    have hcomp : (pythonRangeAux (rowsPerChunk cols chunkSize) 0 rows).flatMap
          (fun i => (sheet.drop i).take
            (min (i + rowsPerChunk cols chunkSize - 1) (rows - 1) - i + 1))
        = ((pythonRangeAux (rowsPerChunk cols chunkSize) 0 rows).map
            (fun j => (j, min (j + rowsPerChunk cols chunkSize - 1) (rows - 1) - j + 1))).flatMap
            (fun p => (sheet.drop p.1).take p.2) := by
      rw [List.flatMap_map]
    rw [hcomp, pythonRangeAux_map_eq_chunkPlanAux (rowsPerChunk cols chunkSize) hrpc rows 0,
      Nat.sub_zero,
      chunkPlanAux_flatMap_take (rowsPerChunk cols chunkSize) hrpc sheet 0 rows (by omega),
      List.drop_zero]
  · have h6 : rowsPerChunk 40 250 = 6 := rfl
    rw [readChunkBounds, h6, pythonRange, if_neg (by omega), Option.map_some',
      pythonRangeAux, if_pos (by omega), pythonRangeAux, if_pos (by omega),
      pythonRangeAux, if_neg (by omega)]
    rfl

/-- Witness for C5: a 2-row, 1-column sheet read with 1 cell per chunk comes
back whole, in order, with each cell stripped. -/
theorem c5_chunked_read_reassembly_witness :
    get_range_data [[" a "], ["b "]] 2 1 1 = some [["a"], ["b"]] :=
  (c5_chunked_read_reassembly.1 [[" a "], ["b "]] 2 1 1 rfl (by decide) (by decide)).trans
    (by decide)

/-- Counterexample to C6 as stated: at `maxCells = 1` and `totalCols = 2`
(both ≥ 1, with `totalCols > maxCells`) the computed rows-per-chunk is 0, and
the read does not proceed with a 1-row chunk: Python's `range(0, rows, 0)`
raises `ValueError`, modelled as `none`. -/
theorem c6_rows_per_chunk_counterexample :
    rowsPerChunk 2 1 = 0 ∧ get_range_data [["x"]] 1 2 1 = none :=
  ⟨rfl, rfl⟩

/-- C6 amended: `row_chunk_size = chunk_size // cols` has no lower clamp.
When `totalCols ≤ maxCells` the quotient is at least 1 and the read proceeds;
when `totalCols > maxCells` the quotient is 0 and the read fails on the
zero-step `range`, for every sheet and row count. -/
theorem c6_rows_per_chunk_no_clamp (cols chunkSize : Nat) (h1 : 1 ≤ cols) :
    (cols ≤ chunkSize →
      1 ≤ rowsPerChunk cols chunkSize ∧
      ∀ (sheet : List (List String)) (rows : Nat),
        (get_range_data sheet rows cols chunkSize).isSome = true) ∧
    (chunkSize < cols →
      rowsPerChunk cols chunkSize = 0 ∧
      ∀ (sheet : List (List String)) (rows : Nat),
        get_range_data sheet rows cols chunkSize = none) := by
  constructor
  · intro hle
    have hpos : 1 ≤ rowsPerChunk cols chunkSize := Nat.div_pos hle (by omega)
    refine ⟨hpos, fun sheet rows => ?_⟩
    rw [get_range_data, pythonRange, if_neg (by omega), Option.map_some']
    rfl
  · intro hlt
    have h0 : rowsPerChunk cols chunkSize = 0 := Nat.div_eq_of_lt hlt
    refine ⟨h0, fun sheet rows => ?_⟩
    rw [get_range_data, pythonRange, h0, if_pos rfl]
    rfl

/-- Witness for C6 amended: a 3-column sheet read with 1 cell per chunk fails
with the zero-step range, while a 1-column read with 5 cells per chunk has a
positive row chunk size. -/
theorem c6_rows_per_chunk_no_clamp_witness :
    get_range_data [["x"], ["y"]] 2 3 1 = none ∧ 1 ≤ rowsPerChunk 1 5 :=
  ⟨((c6_rows_per_chunk_no_clamp 3 1 (by decide)).2 (by decide)).2 [["x"], ["y"]] 2,
   ((c6_rows_per_chunk_no_clamp 1 5 (by decide)).1 (by decide)).1⟩

/-- Loop body of `xl_col2num` (misc.py line 18): characters outside
`string.ascii_letters` are skipped, a letter contributes
`num * 26 + (ord(c.upper()) - ord('A')) + 1`. -/
def colStep (num : Nat) (c : Char) : Nat :=
  if c.isAlpha then num * 26 + (c.toUpper.toNat - 65) + 1 else num

/-- Model of `xl_col2num` (misc.py lines 10-19). -/
def xl_col2num (col : List Char) : Nat :=
  List.foldl colStep 0 col

/-- The `while num > 0` loop of `xl_num2col` (misc.py lines 27-31) on a
nonnegative count: `num, rem = divmod(num - 1, 26)` then `s = chr(65 + rem) + s`. -/
def xl_num2colAux (num : Nat) : List Char :=
  if num = 0 then []
  else xl_num2colAux ((num - 1) / 26) ++ [Char.ofNat (65 + (num - 1) % 26)]
termination_by num
decreasing_by omega

/-- Model of `xl_num2col` (misc.py lines 22-31): for `num ≤ 0` the loop guard
`num > 0` fails immediately and the empty string is returned, hence the
`Int.toNat` clamp. -/
def xl_num2col (num : Int) : String :=
  String.mk (xl_num2colAux num.toNat)

/-- Model of `xl_add2col` (misc.py lines 34-38). -/
def xl_add2col (start : List Char) (addition : Int) : String :=
  xl_num2col ((xl_col2num start : Int) + addition)

/-- Character class of the regex `[A-Z]` used by `xl_parse_cell_address`. -/
def isUpperAZ (c : Char) : Bool :=
  decide ('A' ≤ c ∧ c ≤ 'Z')

/-- First maximal run of characters satisfying `p`: the model of
`re.findall(pattern, s)[0]` for a one-class pattern, `none` when there is no
match (Python raises `IndexError` on the empty findall result). -/
def firstRun (p : Char → Bool) : List Char → Option (List Char)
  | [] => none
  | c :: rest => if p c then some (c :: rest.takeWhile p) else firstRun p rest

/-- Loop body of the decimal accumulation performed by Python's `int()`. -/
def digitStep (n : Nat) (c : Char) : Nat :=
  n * 10 + (c.toNat - 48)

/-- Value of Python's `int()` on a run of decimal digits. -/
def digitsToNat (l : List Char) : Nat :=
  List.foldl digitStep 0 l

/-- Model of `xl_parse_cell_address` (misc.py lines 41-48): the first `[A-Z]+`
run is the column, the first `[0-9]+` run, through `int`, is the row. -/
def xl_parse_cell_address (addr : String) : Option (List Char × Nat) :=
  match firstRun isUpperAZ addr.data, firstRun Char.isDigit addr.data with
  | some col, some digits => some (col, digitsToNat digits)
  | _, _ => none

/-- Decimal digit characters of a nonnegative integer, most significant
first, as Python's `str` renders them. -/
def natToDigits (n : Nat) : List Char :=
  if n < 10 then [Char.ofNat (48 + n)]
  else natToDigits (n / 10) ++ [Char.ofNat (48 + n % 10)]
termination_by n
decreasing_by omega

/-- Python's `str` on an integer: a leading minus sign on negatives. -/
def intToDecimal (i : Int) : List Char :=
  if i < 0 then '-' :: natToDigits i.natAbs else natToDigits i.toNat

/-- Model of `xl_shift_cell` (misc.py lines 51-58): parse the address, shift
the column through `xl_add2col`, add the row delta, and render
`f'{new_col}{new_row}'`. -/
def xl_shift_cell (addr : String) (row_shift col_shift : Int) : Option String :=
  (xl_parse_cell_address addr).map (fun cr =>
    xl_add2col cr.1 col_shift ++ String.mk (intToDecimal ((cr.2 : Int) + row_shift)))

/-- The character `chr(65 + r)` for `r < 26` is an ASCII capital letter:
alphabetic, its own upcasing, in `[A-Z]`, and not a digit. -/
theorem upperChar_facts (r : Nat) (hr : r < 26) :
    (Char.ofNat (65 + r)).isAlpha = true ∧
    (Char.ofNat (65 + r)).toUpper = Char.ofNat (65 + r) ∧
    (Char.ofNat (65 + r)).toNat = 65 + r ∧
    isUpperAZ (Char.ofNat (65 + r)) = true ∧
    (Char.ofNat (65 + r)).isDigit = false := by
  interval_cases r <;> decide

/-- The character `chr(48 + d)` for `d < 10` is an ASCII digit and not in
`[A-Z]` nor alphabetic. -/
theorem digitChar_facts (d : Nat) (hd : d < 10) :
    (Char.ofNat (48 + d)).isDigit = true ∧
    (Char.ofNat (48 + d)).toNat = 48 + d ∧
    isUpperAZ (Char.ofNat (48 + d)) = false ∧
    (Char.ofNat (48 + d)).isAlpha = false := by
  interval_cases d <;> decide

/-- Shift law of the `xl_col2num` fold: a starting accumulator is scaled by
26 once per letter of the tail. -/
theorem foldl_colStep_shift (l : List Char) (acc : Nat) :
    List.foldl colStep acc l
      = acc * 26 ^ (l.countP Char.isAlpha) + List.foldl colStep 0 l := by
  induction l generalizing acc with
  | nil => simp
  | cons c l ih =>
    rw [List.foldl_cons, List.foldl_cons, ih (colStep acc c), ih (colStep 0 c)]
    by_cases hc : c.isAlpha
    · simp only [colStep, if_pos hc, List.countP_cons, hc, if_pos, pow_succ]
      ring
    · simp only [colStep, if_neg hc, List.countP_cons]
      simp [hc]

/-- Every character produced by the `xl_num2col` loop is an ASCII capital:
alphabetic, in `[A-Z]`, and not a digit. -/
theorem xl_num2colAux_chars (num : Nat) :
    ∀ c ∈ xl_num2colAux num, c.isAlpha = true ∧ isUpperAZ c = true ∧ c.isDigit = false := by
  induction num using xl_num2colAux.induct with
  | case1 =>
    rw [xl_num2colAux, if_pos rfl]
    simp
  | case2 n h ih =>
    rw [xl_num2colAux, if_neg h]
    intro c hc
    rcases List.mem_append.mp hc with h1 | h2
    · exact ih c h1
    · rw [List.mem_singleton] at h2
      subst h2
      have hfacts := upperChar_facts ((n - 1) % 26) (Nat.mod_lt _ (by omega))
      exact ⟨hfacts.1, hfacts.2.2.2.1, hfacts.2.2.2.2⟩

/-- The `xl_num2col` loop emits at least one letter for a positive number. -/
theorem xl_num2colAux_ne_nil (num : Nat) (h : 1 ≤ num) : xl_num2colAux num ≠ [] := by
  rw [xl_num2colAux, if_neg (by omega)]
  simp

/-- Round trip at the loop level: `xl_col2num` decodes exactly the number the
`xl_num2col` loop encoded. -/
theorem xl_col2num_num2colAux (num : Nat) :
    xl_col2num (xl_num2colAux num) = num := by
  induction num using xl_num2colAux.induct with
  | case1 =>
    rw [xl_num2colAux, if_pos rfl]
    rfl
  | case2 n h ih =>
    rw [xl_num2colAux, if_neg h, xl_col2num, List.foldl_append]
    have hval := upperChar_facts ((n - 1) % 26) (Nat.mod_lt _ (by omega))
    have hpre : List.foldl colStep 0 (xl_num2colAux ((n - 1) / 26)) = (n - 1) / 26 := ih
    rw [hpre, List.foldl_cons, List.foldl_nil, colStep, if_pos hval.1, hval.2.1,
      hval.2.2.1]
    omega

/-- C4: the column-letter encoders are mutual inverses on every positive
number — `xl_col2num (xl_num2col n) = n` for all `n ≥ 1`, in particular up to
20,000 — and the encoding is the 1-indexed base-26 alphabetic numbering with
the anchors A, Z, AA, ZZ, AAA at 1, 26, 27, 702, 703. -/
theorem c4_column_letters_roundtrip :
    (∀ n : Nat, 1 ≤ n → xl_col2num (xl_num2col (n : Int)).data = n) ∧
    xl_num2col 1 = "A" ∧ xl_num2col 26 = "Z" ∧ xl_num2col 27 = "AA" ∧
    xl_num2col 702 = "ZZ" ∧ xl_num2col 703 = "AAA" := by
  refine ⟨fun n hn => ?_, ?_, ?_, ?_, ?_, ?_⟩
  · show xl_col2num (xl_num2colAux ((n : Int)).toNat) = n
    rw [Int.toNat_natCast]
    exact xl_col2num_num2colAux n
  · simp [xl_num2col, xl_num2colAux]
  · simp [xl_num2col, xl_num2colAux]
  · simp [xl_num2col, xl_num2colAux]
  · simp [xl_num2col, xl_num2colAux]
  · simp [xl_num2col, xl_num2colAux]

/-- Witness for C4: the round trip at 20,000. -/
theorem c4_column_letters_roundtrip_witness :
    xl_col2num (xl_num2col ((20000 : Nat) : Int)).data = 20000 :=
  c4_column_letters_roundtrip.1 20000 (by decide)

/-- Shift law of the decimal fold: a starting accumulator is scaled by 10
once per character. -/
theorem foldl_digitStep_shift (l : List Char) (acc : Nat) :
    List.foldl digitStep acc l
      = acc * 10 ^ l.length + List.foldl digitStep 0 l := by
  induction l generalizing acc with
  | nil => simp
  | cons c l ih =>
    rw [List.foldl_cons, List.foldl_cons, ih (digitStep acc c), ih (digitStep 0 c),
      List.length_cons]
    simp only [digitStep, pow_succ]
    ring

/-- Python's `int` decodes exactly the digits Python's `str` produced. -/
theorem digitsToNat_natToDigits (n : Nat) : digitsToNat (natToDigits n) = n := by
  induction n using natToDigits.induct with
  | case1 n h =>
    rw [natToDigits, if_pos h]
    have hd := digitChar_facts n h
    rw [digitsToNat, List.foldl_cons, List.foldl_nil, digitStep, hd.2.1]
    omega
  | case2 n h ih =>
    rw [natToDigits, if_neg h, digitsToNat, List.foldl_append]
    have hd := digitChar_facts (n % 10) (Nat.mod_lt _ (by omega))
    have hpre : List.foldl digitStep 0 (natToDigits (n / 10)) = n / 10 := ih
    rw [hpre, List.foldl_cons, List.foldl_nil, digitStep, hd.2.1]
    omega

/-- The decimal rendering of a nonnegative number is never empty. -/
theorem natToDigits_ne_nil (n : Nat) : natToDigits n ≠ [] := by
  rw [natToDigits]
  by_cases h : n < 10
  · rw [if_pos h]
    simp
  · rw [if_neg h]
    simp

/-- Every character of the decimal rendering is a digit and not in `[A-Z]`. -/
theorem natToDigits_chars (n : Nat) :
    ∀ c ∈ natToDigits n, c.isDigit = true ∧ isUpperAZ c = false := by
  induction n using natToDigits.induct with
  | case1 n h =>
    rw [natToDigits, if_pos h]
    intro c hc
    rw [List.mem_singleton] at hc
    subst hc
    have hd := digitChar_facts n h
    exact ⟨hd.1, hd.2.2.1⟩
  | case2 n h ih =>
    rw [natToDigits, if_neg h]
    intro c hc
    rcases List.mem_append.mp hc with h1 | h2
    · exact ih c h1
    · rw [List.mem_singleton] at h2
      subst h2
      have hd := digitChar_facts (n % 10) (Nat.mod_lt _ (by omega))
      exact ⟨hd.1, hd.2.2.1⟩

/-- `takeWhile` keeps a fully satisfying prefix and continues into the tail. -/
theorem takeWhile_append_all {p : Char → Bool} {l : List Char} (l' : List Char)
    (hall : ∀ c ∈ l, p c = true) :
    (l ++ l').takeWhile p = l ++ l'.takeWhile p := by
  induction l with
  | nil => rfl
  | cons c rest ih =>
    rw [List.cons_append, List.takeWhile_cons,
      if_pos (hall c (List.mem_cons_self c rest)),
      ih (fun x hx => hall x (List.mem_cons_of_mem c hx)), List.cons_append]

/-- A first-run search over a satisfying nonempty prefix returns that prefix
extended by whatever run continues it. -/
theorem firstRun_append_all {p : Char → Bool} {l : List Char} (l' : List Char)
    (hne : l ≠ []) (hall : ∀ c ∈ l, p c = true) :
    firstRun p (l ++ l') = some (l ++ l'.takeWhile p) := by
  cases l with
  | nil => exact absurd rfl hne
  | cons c rest =>
    rw [List.cons_append, firstRun, if_pos (hall c (List.mem_cons_self c rest)),
      takeWhile_append_all l' (fun x hx => hall x (List.mem_cons_of_mem c hx)),
      List.cons_append]

/-- A first-run search skips a prefix with no satisfying character. -/
theorem firstRun_append_none {p : Char → Bool} {l : List Char} (l' : List Char)
    (hall : ∀ c ∈ l, p c = false) :
    firstRun p (l ++ l') = firstRun p l' := by
  induction l with
  | nil => rfl
  | cons c rest ih =>
    rw [List.cons_append, firstRun,
      if_neg (by simp [hall c (List.mem_cons_self c rest)])]
    exact ih (fun x hx => hall x (List.mem_cons_of_mem c hx))

/-- A first-run search over a nonempty fully satisfying list returns it whole. -/
theorem firstRun_all {p : Char → Bool} {l : List Char} (hne : l ≠ [])
    (hall : ∀ c ∈ l, p c = true) :
    firstRun p l = some l := by
  have h := firstRun_append_all (p := p) (l := l) [] hne hall
  rw [List.append_nil] at h
  rw [h]
  simp

/-- Parsing a string made of a positive column's letters followed by a
number's digits recovers exactly those letters and that number. -/
theorem parse_letters_digits (colNum : Nat) (hc : 1 ≤ colNum) (m : Nat) :
    xl_parse_cell_address (String.mk (xl_num2colAux colNum ++ natToDigits m))
      = some (xl_num2colAux colNum, m) := by
  have hletters := xl_num2colAux_chars colNum
  have hdigits := natToDigits_chars m
  have hne : xl_num2colAux colNum ≠ [] := xl_num2colAux_ne_nil colNum hc
  have hdata : (String.mk (xl_num2colAux colNum ++ natToDigits m)).data
      = xl_num2colAux colNum ++ natToDigits m := rfl
  have h1 : firstRun isUpperAZ (xl_num2colAux colNum ++ natToDigits m)
      = some (xl_num2colAux colNum) := by
    rw [firstRun_append_all (natToDigits m) hne (fun c hc' => (hletters c hc').2.1)]
    have htw : (natToDigits m).takeWhile isUpperAZ = [] := by
      obtain ⟨d, ds, hds⟩ := List.exists_cons_of_ne_nil (natToDigits_ne_nil m)
      rw [hds, List.takeWhile_cons,
        if_neg (by simp [(hdigits d (by rw [hds]; exact List.mem_cons_self d ds)).2])]
    rw [htw, List.append_nil]
  have h2 : firstRun Char.isDigit (xl_num2colAux colNum ++ natToDigits m)
      = some (natToDigits m) := by
    rw [firstRun_append_none (natToDigits m) (fun c hc' => (hletters c hc').2.2)]
    exact firstRun_all (natToDigits_ne_nil m) (fun c hc' => (hdigits c hc').1)
  rw [xl_parse_cell_address, hdata, h1, h2]
  show some (xl_num2colAux colNum, digitsToNat (natToDigits m))
      = some (xl_num2colAux colNum, m)
  rw [digitsToNat_natToDigits]

/-- Counterexample to C7 as stated: shifting B7 two columns left takes the
column number from 2 to 0, yet `xl_shift_cell` does not fail with any error —
it silently returns the bare row string "7" with no column letters. -/
theorem c7_shift_cell_counterexample :
    xl_shift_cell "B7" 0 (-2) = some "7" ∧ xl_col2num ['B'] = 2 := by
  constructor
  · have hp : xl_parse_cell_address "B7" = some (['B'], 7) := by decide
    rw [xl_shift_cell, hp, Option.map_some']
    have ha : xl_add2col ['B'] (-2) = "" := by
      simp [xl_add2col, xl_num2col, xl_num2colAux, xl_col2num, colStep]
    rw [ha]
    simp [intToDecimal, natToDigits]
  · rfl

/-- C7 amended: on any address that parses, `xl_shift_cell` never signals an
error: it returns the string of the shifted column's letters followed by the
shifted row's decimal digits.  When the shifted column number is at least 1
and the shifted row is nonnegative, parsing the result recovers exactly the
shifted column number and shifted row; a shifted column number of 0 or below
instead renders no letters at all (see the C10 theorem), which is why the
original claim's `InvalidShift` failure does not exist in the code. -/
theorem c7_shift_cell_no_error (addr : String) (col : List Char) (row : Nat)
    (rd cd : Int) (hparse : xl_parse_cell_address addr = some (col, row)) :
    xl_shift_cell addr rd cd
      = some (xl_num2col ((xl_col2num col : Int) + cd)
          ++ String.mk (intToDecimal ((row : Int) + rd))) ∧
    (1 ≤ (xl_col2num col : Int) + cd → 0 ≤ (row : Int) + rd →
      xl_parse_cell_address
          (xl_num2col ((xl_col2num col : Int) + cd)
            ++ String.mk (intToDecimal ((row : Int) + rd)))
        = some ((xl_num2col ((xl_col2num col : Int) + cd)).data,
            ((row : Int) + rd).toNat) ∧
      (xl_col2num (xl_num2col ((xl_col2num col : Int) + cd)).data : Int)
        = (xl_col2num col : Int) + cd) := by
  constructor
  · rw [xl_shift_cell, hparse, Option.map_some']
    rfl
  · intro h1 h2
    have hk1 : 1 ≤ ((xl_col2num col : Int) + cd).toNat := by omega
    have hrow : intToDecimal ((row : Int) + rd)
        = natToDigits ((row : Int) + rd).toNat := by
      rw [intToDecimal, if_neg (by omega)]
    have happ : xl_num2col ((xl_col2num col : Int) + cd)
          ++ String.mk (intToDecimal ((row : Int) + rd))
        = String.mk (xl_num2colAux ((xl_col2num col : Int) + cd).toNat
            ++ natToDigits ((row : Int) + rd).toNat) := by
      rw [xl_num2col, hrow]
      rfl
    constructor
    · rw [happ, parse_letters_digits _ hk1 _]
      rfl
    · show (xl_col2num (xl_num2colAux ((xl_col2num col : Int) + cd).toNat) : Int)
          = (xl_col2num col : Int) + cd
      rw [xl_col2num_num2colAux]
      omega

/-- Witness for C7 amended: shifting B7 by two rows and one column yields C9
(the spec's own example), whose parse gives column 3 and row 9. -/
theorem c7_shift_cell_no_error_witness :
    xl_shift_cell "B7" 2 1
      = some (xl_num2col ((xl_col2num ['B'] : Int) + 1)
          ++ String.mk (intToDecimal (((7 : Nat) : Int) + 2))) ∧
    xl_parse_cell_address
        (xl_num2col ((xl_col2num ['B'] : Int) + 1)
          ++ String.mk (intToDecimal (((7 : Nat) : Int) + 2)))
      = some ((xl_num2col ((xl_col2num ['B'] : Int) + 1)).data,
          (((7 : Nat) : Int) + 2).toNat) ∧
    (xl_col2num (xl_num2col ((xl_col2num ['B'] : Int) + 1)).data : Int)
      = (xl_col2num ['B'] : Int) + 1 :=
  ⟨(c7_shift_cell_no_error "B7" ['B'] 7 2 1 (by decide)).1,
   ((c7_shift_cell_no_error "B7" ['B'] 7 2 1 (by decide)).2 (by decide) (by decide)).1,
   ((c7_shift_cell_no_error "B7" ['B'] 7 2 1 (by decide)).2 (by decide) (by decide)).2⟩

/-- C10: `xl_num2col` returns the empty string on every integer at or below
zero, and consequently `xl_shift_cell` with a column delta that takes the
column number to 0 or below returns a string holding only the row number —
no column letters and no error. -/
theorem c10_nonpositive_column_empty :
    (∀ n : Int, n ≤ 0 → xl_num2col n = "") ∧
    (∀ (addr : String) (col : List Char) (row : Nat) (rd cd : Int),
      xl_parse_cell_address addr = some (col, row) →
      (xl_col2num col : Int) + cd ≤ 0 →
      xl_shift_cell addr rd cd
        = some (String.mk (intToDecimal ((row : Int) + rd)))) := by
  have hempty : ∀ n : Int, n ≤ 0 → xl_num2col n = "" := by
    intro n hn
    rw [xl_num2col, Int.toNat_of_nonpos hn, xl_num2colAux, if_pos rfl]
  refine ⟨hempty, fun addr col row rd cd hparse hle => ?_⟩
  rw [xl_shift_cell, hparse, Option.map_some']
  have ha : xl_add2col col cd = "" := hempty _ hle
  rw [ha]
  rfl

/-- Witness for C10: `xl_num2col (-5)` is empty, and shifting B7 two columns
left returns just the row digits. -/
theorem c10_nonpositive_column_empty_witness :
    xl_num2col (-5) = "" ∧
    xl_shift_cell "B7" 0 (-2)
      = some (String.mk (intToDecimal (((7 : Nat) : Int) + 0))) :=
  ⟨c10_nonpositive_column_empty.1 (-5) (by decide),
   c10_nonpositive_column_empty.2 "B7" ['B'] 7 0 (-2) (by decide) (by decide)⟩
